import Mathlib

/-!
Verification development for the pyumi geometry-resolution and
project-assembly pipeline.

The definitions below are a shallow embedding of the Python source:

* `pyumi/geom_ops.py`   — ring extraction (`extract_poly_coords`), the solid
  builder (`geom_to_brep`, `geom_to_face_with_hole`);
* `pyumi/umi_layers.py` — the hierarchical layer namespace (`UmiLayers`);
* `pyumi/umi_project.py` — the project assembler (`UmiProject.from_gdf`,
  `add_default_shoebox_settings`, the `move_to_layer` closure).

Python floats are embedded as exact rationals (`ℚ`); the literal `1e-12`
becomes `1 / 10 ^ 12`.  Python functions that can raise are embedded as
`Except String`-valued functions; the numpy `NaN` failure sentinel used by the
solid builder is embedded as `Option.none`.  External library objects
(shapely geometries, rhino3dm layers/planes/curves) are embedded as explicit
inductive data; where their behaviour is not visible in the repository it is
modelled from the specification's description, and such definitions say so in
their doc comment.
-/

namespace Pyumi

/-- A 2-D coordinate.  Shapely coordinates may carry a third (z) component,
which the pipeline discards on ingestion (`for x, y, *z in coords`), so
coordinates are embedded as pairs. -/
abbrev Coord := ℚ × ℚ

/-- A rhino3dm `Point3d`. -/
structure Point3d where
  x : ℚ
  y : ℚ
  z : ℚ

deriving DecidableEq, Repr

/-- A shapely `Polygon`: one exterior ring plus zero or more interior (hole)
rings, each a coordinate list. -/
structure Poly where
  exterior : List Coord
  interiors : List (List Coord)

deriving DecidableEq, Repr

/-- The closed set of shapely geometry kinds the pipeline dispatches on. -/
inductive Geom
  | point (x y : ℚ)
  | polygon (p : Poly)
  | multiPolygon (parts : List Poly)
  | lineString (coords : List Coord)

deriving DecidableEq, Repr

/-- The value of shapely's `geom.type` attribute for each geometry kind. -/
def Geom.typeName : Geom → String
  | .point _ _ => "Point"
  | .polygon _ => "Polygon"
  | .multiPolygon _ => "MultiPolygon"
  | .lineString _ => "LineString"

/-- Whether a geometry is a `Polygon` or a `MultiPolygon` (the two kinds the
ring extractor handles). -/
def Geom.isPolyLike : Geom → Bool
  | .polygon _ => true
  | .multiPolygon _ => true
  | _ => false

/-- Embedding of `geom_ops.extract_poly_coords` restricted to one polygon
part: a `Polygon` yields `(geom.exterior.coords[:], [i.coords[:] for i in
geom.interiors])`. -/
def extractPolyPair (p : Poly) : List Coord × List (List Coord) :=
  (p.exterior, p.interiors)

/-- Embedding of `geom_ops.extract_poly_coords`.  For a `Polygon` it returns
the exterior coordinate list and the list of interior coordinate lists.  For a
`MultiPolygon` it iterates over the parts, recursively extracts each part and
`extend`s both accumulators — note that `extend`ing the exterior accumulator
(a list of coordinates) with another part's exterior coordinate list splices
the coordinates together into a single flat coordinate list.  Any other
geometry type raises `ValueError("Unhandled geometry type: " + repr(geom.type))`,
embedded as `Except.error` (the quotation marks added by Python's `repr` around
the type name are omitted from the embedded message). -/
def extract_poly_coords : Geom → Except String (List Coord × List (List Coord))
  | .polygon p => .ok (extractPolyPair p)
  | .multiPolygon parts =>
      .ok (parts.foldl
        (fun acc part =>
          (acc.1 ++ (extractPolyPair part).1, acc.2 ++ (extractPolyPair part).2))
        ([], []))
  | g => .error ("Unhandled geometry type: " ++ g.typeName)

/-- Closing of a coordinate ring as performed by shapely's `Polygon`
constructor: if the first and last coordinates differ, the first coordinate is
appended at the end.  (The pipeline only ever rebuilds polygons from
coordinate lists that came out of shapely geometries and are therefore already
closed, in which case this is the identity.) -/
def closeRing : List Coord → List Coord
  | [] => []
  | c :: cs => if (c :: cs).getLast? = some c then c :: cs else (c :: cs) ++ [c]

/-- Embedding of `shapely.geometry.Polygon(exterior, interiors)` as used at
`geom_ops.py:63`: the constructor stores the given rings, closing each one if
needed. -/
def shapelyPolygon (exterior : List Coord) (interiors : List (List Coord)) : Poly :=
  ⟨closeRing exterior, interiors.map closeRing⟩

/-- Conversion of a 2-D coordinate to the `Point3d(x, y, 0)` used throughout
`geom_ops.py`. -/
def toPoint3d (c : Coord) : Point3d :=
  ⟨c.1, c.2, 0⟩

/-- A rhino3dm `PolylineCurve` is determined by its point list. -/
abbrev PolylineCurve := List Point3d

/-- A freshly constructed `PolylineCurve` object is never the Python value
`None`; the source's `outerProfile is None` check is embedded through this
constant predicate. -/
def PolylineCurve.isNoneObject (_ : PolylineCurve) : Bool := false

/-- A rhino3dm `Plane`, determined by its origin and axes. -/
structure Plane where
  origin : Point3d
  xAxis : Point3d
  yAxis : Point3d
  zAxis : Point3d

deriving DecidableEq, Repr

/-- Embedding of `rhino3dm.Plane.WorldXY()`. -/
def Plane.WorldXY : Plane :=
  ⟨⟨0, 0, 0⟩, ⟨1, 0, 0⟩, ⟨0, 1, 0⟩, ⟨0, 0, 1⟩⟩

/-- A `Plane` object has no falsy states in Python, so the source's
`if not plane:` test is embedded through this constant predicate. -/
def Plane.truthy (_ : Plane) : Bool := true

/-- A rhino3dm `Line` between two points.  `from` is a Lean keyword, so the
endpoint fields are named `fromPt`/`toPt`. -/
structure Line where
  fromPt : Point3d
  toPt : Point3d

deriving DecidableEq, Repr

/-- Modelled from the spec: rhino3dm's `Line.IsValid`, which holds when the
two endpoints differ (the spec requires "the vertical sweep path … must be
valid"). -/
def Line.IsValid (l : Line) : Bool :=
  l.fromPt ≠ l.toPt

/-- Modelled from the spec: rhino3dm's `Line.Length`.  `geom_to_brep` only
measures the vertical sweep path from `(0,0,0)` to `(0,0,t)`; to keep the
embedding computable over `ℚ` the length is defined as the supremum-norm
length, which coincides with the Euclidean length on axis-parallel lines such
as that sweep path. -/
def Line.Length (l : Line) : ℚ :=
  max |l.toPt.x - l.fromPt.x| (max |l.toPt.y - l.fromPt.y| |l.toPt.z - l.fromPt.z|)

/-- The result artifact of the solid builder: either a planar trimmed face or
an extrusion converted to a boundary representation.  The extrusion records
the outer profile, the inner (hole) profiles, the sweep path endpoints, the up
vector and the cap flag passed to `SetOuterProfile`. -/
inductive Brep
  | trimmedFace (plane : Plane) (boundary : List Point3d)
  | extrusionBrep (outer : List Point3d) (inners : List (List Point3d))
      (pathFrom pathTo : Point3d) (up : Point3d) (cap : Bool)

deriving DecidableEq, Repr

/-- Modelled from the spec: rhino3dm's `Brep.CreateTrimmedPlane` fails (the
flat-face path then yields the `NaN` failure sentinel) when the trimming
boundary has fewer than 2 usable points, and otherwise produces the trimmed
planar face. -/
def Brep.CreateTrimmedPlane (plane : Plane) (curve : PolylineCurve) : Option Brep :=
  if curve.length < 2 then none else some (.trimmedFace plane curve)

deriving instance DecidableEq for Except

/-- The hard-coded absolute epsilon `1e-12` of `geom_ops.py`. -/
def epsilon : ℚ := 1 / 10 ^ 12

/-- Embedding of `geom_ops.geom_to_face_with_hole`.  The exterior and interior
rings are extracted; the interior rings are then ignored ("Cannot create hole
for now" — the hole-handling loop is commented out in the source); the
boundary curve is built from the exterior coordinates with the first vertex
dropped (`coords[1:]`); and the face is obtained by trimming the world-XY
plane with that curve. -/
def geom_to_face_with_hole (geom : Geom) : Except String (Option Brep) := do
  let (exterior, _interiors) ← extract_poly_coords geom
  let coords := exterior.map toPoint3d
  let exterior_crv : PolylineCurve := coords.drop 1
  return Brep.CreateTrimmedPlane Plane.WorldXY exterior_crv

/-- Embedding of `geom_ops.geom_to_brep`.  If `to_elevation <= 1e-12` the
flat-face builder is called; otherwise the rings are extracted, a shapely
polygon is rebuilt from them, the outer and inner profile curves are built at
`z = 0`, the source's validity checks are performed (each failure returning
the `NaN` sentinel, embedded as `none`), and the extrusion is assembled with
the vertical sweep path from `(0,0,0)` to `(0,0,to_elevation)` and the world
plane's Y axis as up vector.  `from_elevation` is accepted but never read by
the source body.  The `Duplicate()`/`ChangeDimension(2)` calls on the profile
curves are pure copies (every profile point already has `z = 0`) and are not
represented. -/
def geom_to_brep (geom : Geom) (from_elevation to_elevation : ℚ) :
    Except String (Option Brep) :=
  if to_elevation ≤ epsilon then geom_to_face_with_hole geom
  else do
    let (exterior, interiors) ← extract_poly_coords geom
    let geom2 := shapelyPolygon exterior interiors
    let outerProfile : PolylineCurve := geom2.exterior.map toPoint3d
    let innerProfiles : List PolylineCurve :=
      geom2.interiors.map (fun interior => interior.map toPoint3d)
    if outerProfile.isNoneObject ∨ to_elevation ≤ epsilon then return none
    else
      let plane := Plane.WorldXY
      if ¬ plane.truthy then return none
      else
        let path : Line := ⟨⟨0, 0, 0⟩, ⟨0, 0, to_elevation⟩⟩
        if ¬ path.IsValid ∨ path.Length ≤ epsilon then return none
        else
          let up := plane.yAxis
          return some (.extrusionBrep outerProfile innerProfiles
            path.fromPt path.toPt up true)

/-- Whether a solid-builder result is the flat planar-face outcome. -/
def resultIsFlatFace : Except String (Option Brep) → Bool
  | .ok (some (.trimmedFace _ _)) => true
  | _ => false

/-! Concrete fixtures used by counterexamples and witnesses. -/

/-- The closed exterior ring of a unit square. -/
def unitSquareRing : List Coord := [(0, 0), (1, 0), (1, 1), (0, 1), (0, 0)]

/-- A unit-square polygon without holes. -/
def unitSquare : Poly := ⟨unitSquareRing, []⟩

/-- A closed triangle near the origin. -/
def tri1 : Poly := ⟨[(0, 0), (1, 0), (0, 1), (0, 0)], []⟩

/-- A second closed triangle away from the origin. -/
def tri2 : Poly := ⟨[(5, 5), (6, 5), (5, 6), (5, 5)], []⟩

/-!
Embedding of `pyumi/umi_layers.py`.

A rhino3dm `File3dm.Layers` table is embedded as a list of layer records plus
a fresh-id supply.  Layer `Id`s are guids in rhino3dm; they are embedded as
naturals, with `0` standing for the nil (all-zero) guid carried by a freshly
constructed `Layer()` object.  rhino3dm computes a layer's `FullPath`
dynamically from the parent chain with the fixed delimiter `"::"`; since no
operation of `umi_layers.py` ever renames or re-parents a stored layer, the
embedding records the full path at insertion time, which yields the same
value.
-/

/-- A rhino3dm `Layer` record as used by `UmiLayers`. -/
structure Layer where
  id : Nat
  name : String
  parentLayerId : Nat
  color : Nat × Nat × Nat × Nat
  fullPath : String

deriving DecidableEq, Repr

/-- A freshly constructed `rhino3dm.Layer()`: nil guid, empty name, nil
parent, default color black `(0,0,0,255)`, empty full path. -/
def Layer.fresh : Layer := ⟨0, "", 0, (0, 0, 0, 255), ""⟩

/-- The layer table of a `File3dm` file. -/
structure File3dmLayerTable where
  layers : List Layer
  nextId : Nat

deriving DecidableEq, Repr

/-- The layer table of a freshly created `File3dm()`. -/
def File3dmLayerTable.empty : File3dmLayerTable := ⟨[], 0⟩

/-- rhino3dm `File3dm.Layers.FindName(name, parentId)`: the first stored
layer whose name and parent id match. -/
def File3dmLayerTable.findName (tbl : File3dmLayerTable) (name : String)
    (parentId : Nat) : Option Layer :=
  tbl.layers.find? (fun l => l.name == name && l.parentLayerId == parentId)

/-- Lookup of a stored layer by id (used by rhino3dm to resolve parent
links). -/
def File3dmLayerTable.findById (tbl : File3dmLayerTable) (id : Nat) : Option Layer :=
  tbl.layers.find? (fun l => l.id == id)

/-- Embedding of `UmiLayers.find_layer_from_fullpath`: the first stored layer
whose `FullPath` equals the query (`filter` + first-element unpacking in the
source, `None` when the filter is empty). -/
def File3dmLayerTable.find_layer_from_fullpath (tbl : File3dmLayerTable)
    (full_path : String) : Option Layer :=
  tbl.layers.find? (fun l => l.fullPath == full_path)

/-- Embedding of `File3dm.Layers.Add(_layer)` for a layer with the given name
and parent id: the file assigns a fresh (nonzero) id, keeps the default black
color of `Layer()`, and the stored full path is the parent's full path
extended with `"::"` and the name — a parent id matching no stored layer (in
particular the nil id `0` of root layers) yields a root path consisting of
the name alone. -/
def File3dmLayerTable.addNamed (tbl : File3dmLayerTable) (name : String)
    (parentLayerId : Nat) : File3dmLayerTable :=
  let fullPath := match tbl.findById parentLayerId with
    | some pl => pl.fullPath ++ "::" ++ name
    | none => name
  { layers := tbl.layers ++
      [⟨tbl.nextId + 1, name, parentLayerId, (0, 0, 0, 255), fullPath⟩],
    nextId := tbl.nextId + 1 }

/-- Extension of an accumulated path prefix with the next segment, matching
`delimiter.join([x, y])` in the source's `accumulate` call (`none` stands for
"no prefix yet", i.e. the first iteration). -/
def extendPath (delimiter : String) (sofar : Option String) (seg : String) : String :=
  match sofar with
  | none => seg
  | some s => s ++ delimiter ++ seg

/-- The list of accumulated prefixes `res = list(accumulate(temp, ...))` of
`UmiLayers.add_layer`, generated from the remaining segments and the prefix
accumulated so far. -/
def partsFrom (delimiter : String) (sofar : Option String) : List String → List String
  | [] => []
  | seg :: rest => extendPath delimiter sofar seg
      :: partsFrom delimiter (some (extendPath delimiter sofar seg)) rest

/-- The delimiter-join of all remaining segments onto the accumulated prefix:
the value of the source's loop variable `part` at the final iteration.  For
the segment list `full_path.split(delimiter)` this recovers `full_path`
itself, because Python's `str.split` produces delimiter-free segments whose
join is the original string. -/
def joinParts (delimiter : String) (sofar : Option String) : List String → Option String
  | [] => sofar
  | seg :: rest => joinParts delimiter (some (extendPath delimiter sofar seg)) rest

/-- The creation loop of `UmiLayers.add_layer` (the `for part in res:` loop).
The source iterates over the accumulated prefixes `res`, recovering each
prefix's leaf name as `part.split(delimiter)[-1]`; that name is exactly the
corresponding segment of `temp = full_path.split(delimiter)` (Python's
`str.split` yields delimiter-free segments), so the loop is expressed over
the remaining segments together with the accumulated prefix `sofar`.  For
each prefix: if a layer with that full path exists it becomes the parent for
the next iteration and nothing is created; otherwise a `Layer()` with the
segment as name and the current parent's id (the `if parent_layer:` test is
always true for a Python `Layer` object) is added to the file, re-fetched via
`FindName`, recorded as a class attribute (collected in `created`), and
becomes both the running result `_layer` (carried in `acc`) and the parent
for the next iteration. -/
def add_layer_loop (delimiter : String) (tbl : File3dmLayerTable)
    (parent_layer : Layer) (sofar : Option String) (acc : Option Layer)
    (created : List Layer) : List String → Option Layer × File3dmLayerTable × List Layer
  | [] => (acc, tbl, created)
  | seg :: rest =>
    let part := extendPath delimiter sofar seg
    match tbl.find_layer_from_fullpath part with
    | some l => add_layer_loop delimiter tbl l (some part) acc created rest
    | none =>
      let tbl2 := tbl.addNamed seg parent_layer.id
      let newLayer := (tbl2.findName seg parent_layer.id).getD Layer.fresh
      add_layer_loop delimiter tbl2 newLayer (some part) (some newLayer)
        (created ++ [newLayer]) rest

/-- Embedding of Python's `str.split(sep)` on the character lists underlying
the strings, with an explicit fuel argument (bounded by the input length, one
character is consumed per step) so that the function is structurally
recursive and evaluates inside the kernel.  `acc` accumulates the current
segment in reverse.  Python raises on an empty separator; an empty `delim` is
therefore guarded out (the pipeline only ever splits on `"::"`). -/
def pySplitAux (delim : List Char) : Nat → List Char → List Char → List (List Char)
  | _, [], acc => [acc.reverse]
  | 0, s, acc => [acc.reverse ++ s]
  | fuel + 1, c :: rest, acc =>
    if delim ≠ [] ∧ delim.isPrefixOf (c :: rest) then
      acc.reverse :: pySplitAux delim fuel ((c :: rest).drop delim.length) []
    else
      pySplitAux delim fuel rest (c :: acc)

/-- Embedding of `full_path.split(delimiter)` in `UmiLayers.add_layer`. -/
def pySplit (s : String) (delimiter : String) : List String :=
  (pySplitAux delimiter.data s.data.length s.data []).map (fun cs => String.mk cs)

/-- Embedding of `UmiLayers.add_layer(full_path, delimiter)`.  If a layer
with the requested full path already exists it is returned and nothing
changes; otherwise the path is split on the delimiter and the creation loop
runs over the accumulated prefixes, starting from a fresh `Layer()` as
parent.  The result bundles the returned layer (`_layer`, the lowest created
layer), the updated layer table, and the list of layers created during the
call (those the source registers as class attributes via `setattr`). -/
def add_layer (tbl : File3dmLayerTable) (full_path : String) (delimiter : String) :
    Layer × File3dmLayerTable × List Layer :=
  match tbl.find_layer_from_fullpath full_path with
  | some l => (l, tbl, [])
  | none =>
    let temp := pySplit full_path delimiter
    let res := add_layer_loop delimiter tbl Layer.fresh none none [] temp
    (res.1.getD Layer.fresh, res.2.1, res.2.2)

/-- Well-formedness of a layer table: stored ids are distinct, nonzero and
bounded by the fresh-id supply, parent ids are bounded by the supply, and
each stored full path is consistent with the parent chain under the rhino3dm
delimiter `"::"`.  Every table reachable from `File3dmLayerTable.empty` by
`add_layer` satisfies this. -/
def WFTable (tbl : File3dmLayerTable) : Prop :=
  (tbl.layers.map Layer.id).Nodup ∧
    (∀ l ∈ tbl.layers, 0 < l.id ∧ l.id ≤ tbl.nextId ∧ l.parentLayerId ≤ tbl.nextId) ∧
    (∀ l ∈ tbl.layers,
      l.fullPath = match tbl.findById l.parentLayerId with
        | some pl => pl.fullPath ++ "::" ++ l.name
        | none => l.name)

instance (tbl : File3dmLayerTable) : Decidable (WFTable tbl) := by
  unfold WFTable
  infer_instance

/-- The record appended to the table by `File3dmLayerTable.addNamed`. -/
def newLayerOf (tbl : File3dmLayerTable) (name : String) (pid : Nat) : Layer :=
  ⟨tbl.nextId + 1, name, pid, (0, 0, 0, 255),
    match tbl.findById pid with
    | some pl => pl.fullPath ++ "::" ++ name
    | none => name⟩

/-!
Class-level layer registry (`setattr(UmiLayers, layer.FullPath, layer)` /
`UmiLayers.__getitem__`).

`UmiLayers.__getitem__` is a `@classmethod` reading `getattr(cls, layer_name)`
— it consults only attributes of the `UmiLayers` class object, which are
shared by every instance.  The world below therefore carries one `File3dm`
layer table per `UmiLayers` instance together with a single class-attribute
list shared by all of them; each registry entry records the index of the
instance whose `add_layer` call created the layer, which stands for the
identity of the Python layer object.  A `setattr` shadows any earlier binding
of the same name, so entries are prepended and lookup takes the first match.
-/

structure UmiLayersWorld where
  files : List File3dmLayerTable
  classAttrs : List (String × Nat × Layer)

deriving DecidableEq, Repr

/-- Embedding of `UmiLayers.add_layer` called on instance `i` of the world:
the instance's own `File3dm` layer table is updated, and every layer created
by the call is registered on the `UmiLayers` class itself via
`setattr(UmiLayers, _layer.FullPath, _layer)` (in creation order, so the most
recently created layer ends up first). -/
def add_layer_inst (w : UmiLayersWorld) (i : Nat) (full_path : String) :
    Layer × UmiLayersWorld :=
  match w.files[i]? with
  | none => (Layer.fresh, w)
  | some tbl =>
    let res := add_layer tbl full_path "::"
    (res.1,
      { files := w.files.set i res.2.1,
        classAttrs := res.2.2.foldl (fun acc cl => (cl.fullPath, i, cl) :: acc)
          w.classAttrs })

/-- Embedding of the classmethod `UmiLayers.__getitem__(layer_name)` =
`getattr(cls, layer_name)`: it reads the shared class attribute and takes no
instance argument at all — which instance (or the class itself) is indexed is
irrelevant. -/
def UmiLayers_getitem (w : UmiLayersWorld) (layer_name : String) :
    Option (Nat × Layer) :=
  (w.classAttrs.find? (fun kv => kv.1 == layer_name)).map (fun kv => kv.2)

/-- A two-instance world over two fresh `File3dm` files, used as witness
input. -/
def twoInstanceWorld : UmiLayersWorld :=
  ⟨[File3dmLayerTable.empty, File3dmLayerTable.empty], []⟩

/-!
Embedding of the `UmiProject.from_gdf` assembler pipeline and the per-feature
settings defaults (`pyumi/umi_project.py`).

A GeoDataFrame row is a `Feature`: the original row index (used in the
discard logs), shapely's `is_valid` verdict on the row's geometry (computed
by the external geometry library and carried here as data), the geometry, and
the attribute cells.  A pandas cell distinguishes the Python object `None`
from the float `NaN`: both count as missing for `isna`/`fillna`, but only the
former satisfies an `is None` check.
-/

/-- A scalar attribute value. -/
inductive Val
  | num (q : ℚ)
  | str (s : String)
  | bool (b : Bool)

deriving DecidableEq, Repr

/-- A pandas cell: the Python object `None`, the float `NaN`, or a value. -/
inductive Cell
  | pynone
  | nan
  | val (v : Val)

deriving DecidableEq, Repr

/-- pandas missing-value test (`isna`): both `None` and `NaN` are missing. -/
def Cell.isna : Cell → Bool
  | .pynone => true
  | .nan => true
  | .val _ => false

/-- Python `str()` of a cell, used for the `Name` attribute
(`str(series[fid])`). -/
def Cell.strOf : Cell → String
  | .pynone => "None"
  | .nan => "nan"
  | .val (.num q) => toString q
  | .val (.str s) => s
  | .val (.bool b) => cond b "True" "False"

/-- One row of the feature collection. -/
structure Feature where
  idx : Nat
  geomIsValid : Bool
  geom : Geom
  cells : List (String × Cell)

deriving DecidableEq, Repr

/-- The first cell entry stored under column `c`, if any. -/
def Feature.cellEntry (f : Feature) (c : String) : Option Cell :=
  (f.cells.find? (fun kv => kv.1 == c)).map (fun kv => kv.2)

/-- Reading column `c` of a row (`series[c]`); a column absent from the row
is read as missing. -/
def Feature.cell (f : Feature) (c : String) : Cell :=
  (f.cellEntry c).getD Cell.nan

/-- Stage 1 of `from_gdf` (umi_project.py:454-464): keep only rows with valid
geometries; the logged warning lists the original indices of the dropped
rows. -/
def filter_invalid_geoms (rows : List Feature) : List Feature × List Nat :=
  (rows.filter (fun f => f.geomIsValid),
    (rows.filter (fun f => ¬ f.geomIsValid)).map (fun f => f.idx))

/-- Stage 2 of `from_gdf` (umi_project.py:466-480): keep only rows whose
height attribute is not missing; the logged warning lists the dropped
indices. -/
def filter_missing_height (h : String) (rows : List Feature) :
    List Feature × List Nat :=
  (rows.filter (fun f => ¬ (f.cell h).isna),
    (rows.filter (fun f => (f.cell h).isna)).map (fun f => f.idx))

/-- `gdf.explode()` (umi_project.py:492): a multi-part geometry becomes one
row per part, all attribute cells copied; other rows pass through. -/
def Feature.explode (f : Feature) : List Feature :=
  match f.geom with
  | .multiPolygon parts => parts.map (fun p => { f with geom := .polygon p })
  | g => [{ f with geom := g }]

/-- Reprojection of every row geometry; the external `osmnx.project_gdf`
transform is represented by an arbitrary per-geometry map `T`. -/
def project_rows (T : Geom → Geom) (rows : List Feature) : List Feature :=
  rows.map (fun f => { f with geom := T f.geom })

/-- Translation of a coordinate by `(dx, dy)`. -/
def translateCoord (dx dy : ℚ) (c : Coord) : Coord := (c.1 + dx, c.2 + dy)

/-- Translation of a polygon by `(dx, dy)`. -/
def translatePoly (dx dy : ℚ) (p : Poly) : Poly :=
  ⟨p.exterior.map (translateCoord dx dy),
    p.interiors.map (fun r => r.map (translateCoord dx dy))⟩

/-- `gdf.translate(dx, dy)` applied to one geometry. -/
def Geom.translate (dx dy : ℚ) : Geom → Geom
  | .point x y => .point (x + dx) (y + dy)
  | .polygon p => .polygon (translatePoly dx dy p)
  | .multiPolygon parts => .multiPolygon (parts.map (translatePoly dx dy))
  | .lineString cs => .lineString (cs.map (translateCoord dx dy))

/-- The numeric height carried by the row (surviving rows always hold a
numeric, non-missing height value). -/
def Feature.heightVal (f : Feature) (h : String) : ℚ :=
  match f.cell h with
  | .val (.num q) => q
  | _ => 0

/-- `try_make_geom` of `from_gdf` (umi_project.py:517-524) in the fresh-file
case (`file3dm=None`): build the brep for the row's geometry from elevation 0
to the row's height. -/
def try_make_geom (h : String) (f : Feature) : Except String (Option Brep) :=
  geom_to_brep f.geom 0 (f.heightVal h)

/-- The `gdf["rhino_geom"] = gdf.progress_apply(try_make_geom, ...)` step: a
raising row aborts the whole call, otherwise each row is paired with its
(possibly sentinel) brep. -/
def make_breps (h : String) (rows : List Feature) :
    Except String (List (Feature × Option Brep)) :=
  rows.mapM (fun f => (try_make_geom h f).map (fun b => (f, b)))

/-- The sentinel filter of `from_gdf` (umi_project.py:530-544): rows whose
`rhino_geom` is the NaN sentinel are dropped, and the logged warning lists
their original indices. -/
def filter_errored_breps (rows : List (Feature × Option Brep)) :
    List (Feature × Brep) × List Nat :=
  (rows.filterMap (fun fb => fb.2.map (fun b => (fb.1, b))),
    (rows.filter (fun fb => fb.2.isNone)).map (fun fb => fb.1.idx))

/-- The geometry stages of `from_gdf` in source order: drop invalid
geometries, drop missing heights, explode to single parts, reproject
(external transform `T`), recenter by the projected centroid offset
`(xoff, yoff)` (umi_project.py:454-511). -/
def pipeline_recentered (h : String) (T : Geom → Geom) (xoff yoff : ℚ)
    (rows : List Feature) : List Feature :=
  let s1 := (filter_invalid_geoms rows).1
  let s2 := (filter_missing_height h s1).1
  let exploded := s2.flatMap Feature.explode
  let projected := project_rows T exploded
  project_rows (Geom.translate (-xoff) (-yoff)) projected

/-- `UmiProject.DEFAULT_SHOEBOX_SETTINGS` (umi_project.py:120-135).  The
Python float literals denote the corresponding rationals; `np.NaN` (the
default `TemplateName`) is the missing cell. -/
def DEFAULT_SHOEBOX_SETTINGS : List (String × Cell) :=
  [("CoreDepth", .val (.num 3)),
   ("Envr", .val (.num 1)),
   ("Fdist", .val (.num 1)),
   ("FloorToFloorHeight", .val (.num 3)),
   ("PerimeterOffset", .val (.num 3)),
   ("RoomWidth", .val (.num 3)),
   ("WindowToWallRatioE", .val (.num (4 / 10))),
   ("WindowToWallRatioN", .val (.num (4 / 10))),
   ("WindowToWallRatioRoof", .val (.num 0)),
   ("WindowToWallRatioS", .val (.num (4 / 10))),
   ("WindowToWallRatioW", .val (.num (4 / 10))),
   ("TemplateName", .nan),
   ("EnergySimulatorName", .val (.str "UMI Shoeboxer (default)")),
   ("FloorToFloorStrict", .val (.bool true))]

/-- The `gdf_3dm` frame: its column list and its rows. -/
structure Frame where
  columns : List String
  rows : List Feature

deriving DecidableEq, Repr

/-- One step of the column-adding loop of `add_default_shoebox_settings`
(umi_project.py:734-737): a settings column that does not exist yet is added
with the default as the value of every row. -/
def addDefaultColumn (acc : Frame) (attr : String × Cell) : Frame :=
  if acc.columns.contains attr.1 then acc
  else { columns := acc.columns ++ [attr.1],
         rows := acc.rows.map (fun f => { f with cells := f.cells ++ [attr] }) }

/-- The `fillna` pass of `add_default_shoebox_settings` (umi_project.py:740):
every missing cell in a settings column receives that column's default (a
missing cell whose default is itself `NaN` — `TemplateName` — stays
missing). -/
def fillnaRow (f : Feature) : Feature :=
  { f with cells := f.cells.map (fun kc =>
      match DEFAULT_SHOEBOX_SETTINGS.find? (fun d => d.1 == kc.1) with
      | some d => if kc.2.isna then (kc.1, d.2) else kc
      | none => kc) }

/-- Embedding of `UmiProject.add_default_shoebox_settings`
(umi_project.py:725-742): first add each missing settings column with its
default value, then fill remaining missing cells with the defaults. -/
def add_default_shoebox_settings (fr : Frame) : Frame :=
  let fr1 := DEFAULT_SHOEBOX_SETTINGS.foldl addDefaultColumn fr
  { fr1 with rows := fr1.rows.map fillnaRow }

/-- The `move_to_layer` closure of `from_gdf` (umi_project.py:592-606): the
object is moved to the Shading layer when the row's template assignment is
the Python value `None` (`series["TemplateName"] is None`) and to the
Buildings layer otherwise, and its `Name` attribute is set to
`str(series[fid])`.  The result is the pair (full path of the chosen layer,
assigned name). -/
def move_to_layer (fid : String) (f : Feature) : String × String :=
  (if f.cell "TemplateName" = Cell.pynone then "umi::Context::Shading"
   else "umi::Buildings",
   (f.cell fid).strOf)

/-- A one-row frame whose only attribute column is `fid`: the feature has no
template assigned, so `add_default_shoebox_settings` gives it the default
`TemplateName`, which is `NaN`. -/
def c1Frame : Frame :=
  ⟨["fid"], [⟨0, true, .polygon unitSquare, [("fid", .val (.num 7))]⟩]⟩

/-- A row with an invalid geometry and a missing height, used as witness
input for the C7 theorem. -/
def c7Row : Feature := ⟨3, false, .point 0 0, [("height", Cell.nan)]⟩

/-- The per-entry transform applied by `fillnaRow`. -/
def fillCellEntry (kc : String × Cell) : String × Cell :=
  match DEFAULT_SHOEBOX_SETTINGS.find? (fun d => d.1 == kc.1) with
  | some d => if kc.2.isna then (kc.1, d.2) else kc
  | none => kc

/-- A row that explicitly supplies `CoreDepth` and leaves `TemplateName`
missing, used as witness input. -/
def c8Row : Feature :=
  ⟨0, true, .polygon unitSquare,
    [("height", .val (.num 5)), ("CoreDepth", .val (.num 7)), ("TemplateName", .nan)]⟩

/-- A one-row frame for the C8 witness. -/
def c8Frame : Frame := ⟨["height", "CoreDepth", "TemplateName"], [c8Row]⟩

/-- A degenerate feature (two-point exterior ring, height 0) whose flat-face
construction yields the NaN sentinel, used as witness input. -/
def c4BadRow : Feature :=
  ⟨9, true, .polygon ⟨[(0, 0), (1, 1)], []⟩, [("height", .val (.num 0))]⟩

/-! Helper lemmas about the solid builder. -/

theorem epsilon_pos : 0 < epsilon := by norm_num [epsilon]

theorem geom_to_brep_of_le (g : Geom) (f t : ℚ) (h : t ≤ epsilon) :
    geom_to_brep g f t = geom_to_face_with_hole g := by
  simp [geom_to_brep, h]

theorem vertical_line_length (t : ℚ) :
    (Line.mk ⟨0, 0, 0⟩ ⟨0, 0, t⟩).Length = |t| := by
  simp [Line.Length]

theorem geom_to_face_with_hole_polygon (ext : List Coord) (ints : List (List Coord)) :
    geom_to_face_with_hole (.polygon ⟨ext, ints⟩) =
      .ok (Brep.CreateTrimmedPlane Plane.WorldXY ((ext.map toPoint3d).drop 1)) := by
  simp [geom_to_face_with_hole, extract_poly_coords, extractPolyPair]

theorem geom_to_brep_extrusion (p : Poly) (f t : ℚ) (h : ¬ t ≤ epsilon) :
    geom_to_brep (.polygon p) f t =
      .ok (some (.extrusionBrep ((closeRing p.exterior).map toPoint3d)
        ((p.interiors.map closeRing).map fun r => r.map toPoint3d)
        ⟨0, 0, 0⟩ ⟨0, 0, t⟩ ⟨0, 1, 0⟩ true)) := by
  have htpos : 0 < t := lt_trans epsilon_pos (not_le.mp h)
  have hne : (Point3d.mk 0 0 0) ≠ ⟨0, 0, t⟩ := by
    intro hcontra
    rw [Point3d.mk.injEq] at hcontra
    exact absurd hcontra.2.2.symm (ne_of_gt htpos)
  simp [geom_to_brep, h, extract_poly_coords, extractPolyPair, shapelyPolygon,
    PolylineCurve.isNoneObject, Plane.truthy, Plane.WorldXY, Line.IsValid,
    vertical_line_length, abs_of_pos htpos, hne]

/-- C3 (amended): the solid builder takes the flat planar-face path exactly
when `to_elevation ≤ 1e-12`, regardless of `from_elevation` — the source
tests `to_elevation <= 1e-12`, not the claimed
`to_elevation - from_elevation <= 1e-12` — and the epsilon used by its
comparisons is the hard constant `1e-12`. -/
theorem geom_to_brep_flat_iff_to_elevation (p : Poly) (f t : ℚ)
    (h3 : 3 ≤ p.exterior.length) :
    epsilon = 1 / 10 ^ 12 ∧
      (resultIsFlatFace (geom_to_brep (.polygon p) f t) = true ↔ t ≤ epsilon) := by
  refine ⟨rfl, ?_⟩
  by_cases h : t ≤ epsilon
  · rw [geom_to_brep_of_le _ _ _ h]
    have : geom_to_face_with_hole (.polygon p) =
        .ok (Brep.CreateTrimmedPlane Plane.WorldXY ((p.exterior.map toPoint3d).drop 1)) :=
      geom_to_face_with_hole_polygon p.exterior p.interiors
    rw [this]
    have hlen : ¬ (p.exterior.length - 1 < 2) := by omega
    simp [Brep.CreateTrimmedPlane, hlen, resultIsFlatFace, h]
  · rw [geom_to_brep_extrusion _ _ _ h]
    simp [resultIsFlatFace, h]

attribute [local semireducible] Rat.sub Rat.add Rat.mul Rat.inv Rat.ofScientific in
/-- Witness for the C3 amended theorem at the unit square with
`from_elevation 7`, `to_elevation 0`. -/
theorem geom_to_brep_flat_iff_witness :
    3 ≤ unitSquare.exterior.length ∧
      (epsilon = 1 / 10 ^ 12 ∧
        (resultIsFlatFace (geom_to_brep (.polygon unitSquare) 7 0) = true ↔ (0:ℚ) ≤ epsilon)) :=
  ⟨by decide, geom_to_brep_flat_iff_to_elevation unitSquare 7 0 (by decide)⟩

attribute [local semireducible] Rat.sub Rat.add Rat.mul Rat.inv Rat.ofScientific in
/-- C3 counterexample: with `from_elevation = to_elevation = 5` the claimed
condition `to_elevation - from_elevation ≤ 1e-12` holds yet the builder takes
the extrusion path, and with `from_elevation = -5`, `to_elevation = 0` the
claimed condition fails yet the builder produces the flat face. -/
theorem geom_to_brep_flat_condition_counterexample :
    ((5:ℚ) - 5 ≤ epsilon ∧
      resultIsFlatFace (geom_to_brep (.polygon unitSquare) 5 5) = false) ∧
    (¬ ((0:ℚ) - (-5) ≤ epsilon) ∧
      resultIsFlatFace (geom_to_brep (.polygon unitSquare) (-5) 0) = true) := by
  decide

theorem extract_multi_foldl (parts : List Poly) (acc : List Coord × List (List Coord)) :
    parts.foldl
        (fun acc part =>
          (acc.1 ++ (extractPolyPair part).1, acc.2 ++ (extractPolyPair part).2)) acc
      = (acc.1 ++ (parts.map Poly.exterior).flatten, acc.2 ++ (parts.map Poly.interiors).flatten) := by
  induction parts generalizing acc with
  | nil => simp
  | cons p ps ih =>
    rw [List.foldl_cons, ih]
    simp [extractPolyPair, List.append_assoc]

/-- C5 (amended): for a MultiPolygon the Ring Extractor returns as first
component the flat concatenation of the parts' exterior coordinate lists
(one single coordinate list — part boundaries are lost, not one ring per
part), and as second component the concatenation of the parts' interior
rings, whose ring count is the sum of holes across all parts; any other
geometry type yields an error naming the offending type. -/
theorem extract_poly_coords_multipolygon (parts : List Poly) :
    extract_poly_coords (.multiPolygon parts)
        = .ok ((parts.map Poly.exterior).flatten, (parts.map Poly.interiors).flatten) ∧
      ((extract_poly_coords (.multiPolygon parts)).toOption.map fun pr => pr.2.length)
        = some ((parts.map fun p => p.interiors.length).sum) ∧
      (∀ x y : ℚ, extract_poly_coords (.point x y)
        = .error ("Unhandled geometry type: Point")) ∧
      (∀ coords : List Coord, extract_poly_coords (.lineString coords)
        = .error ("Unhandled geometry type: LineString")) := by
  have h1 : extract_poly_coords (.multiPolygon parts)
      = .ok ((parts.map Poly.exterior).flatten, (parts.map Poly.interiors).flatten) := by
    simp [extract_poly_coords, extract_multi_foldl]
  refine ⟨h1, ?_, fun x y => rfl, fun coords => rfl⟩
  rw [h1]
  simp [Except.toOption, List.length_flatten, List.map_map, Function.comp_def]

/-- C5 counterexample: for a two-part MultiPolygon of closed triangles the
first component is the flat list of all 8 coordinates of both exterior
rings — were it a list of one exterior ring per part, as the claim asserts,
it would have exactly 2 entries. -/
theorem extract_ring_count_counterexample :
    (((extract_poly_coords (.multiPolygon [tri1, tri2])).toOption.map
        fun pr => pr.1.length) = some 8) ∧
      ¬ (((extract_poly_coords (.multiPolygon [tri1, tri2])).toOption.map
        fun pr => pr.1.length) = some 2) := by
  decide

/-- C6: in the flat case the builder produces a trimmed planar face bounded
by the exterior ring only — the result is unchanged when all interior rings
are removed — with the boundary curve built from the exterior coordinate
list with its first vertex dropped (`coords[1:]`), while the extrusion case
builds the outer profile from the full exterior ring. -/
theorem flat_face_exterior_only_extrusion_full_ring (ext : List Coord)
    (ints : List (List Coord)) (f t : ℚ)
    (hclosed : closeRing ext = ext) (h3 : 3 ≤ ext.length) (ht : epsilon < t) :
    geom_to_face_with_hole (.polygon ⟨ext, ints⟩)
        = .ok (some (.trimmedFace Plane.WorldXY ((ext.map toPoint3d).drop 1))) ∧
      geom_to_face_with_hole (.polygon ⟨ext, ints⟩)
        = geom_to_face_with_hole (.polygon ⟨ext, []⟩) ∧
      geom_to_brep (.polygon ⟨ext, ints⟩) f t
        = .ok (some (.extrusionBrep (ext.map toPoint3d)
            ((ints.map closeRing).map fun r => r.map toPoint3d)
            ⟨0, 0, 0⟩ ⟨0, 0, t⟩ ⟨0, 1, 0⟩ true)) := by
  have hfl := geom_to_face_with_hole_polygon ext ints
  have hlen : ¬ (ext.length - 1 < 2) := by omega
  refine ⟨?_, ?_, ?_⟩
  · rw [hfl]
    simp [Brep.CreateTrimmedPlane, hlen]
  · rw [hfl, geom_to_face_with_hole_polygon]
  · have hext := geom_to_brep_extrusion ⟨ext, ints⟩ f t (not_le.mpr ht)
    rw [hext]
    simp [hclosed]

attribute [local semireducible] Rat.sub Rat.add Rat.mul Rat.inv Rat.ofScientific in
/-- Witness for the C6 theorem at the unit square with one interior ring and
height 1. -/
theorem flat_face_exterior_only_witness :
    closeRing unitSquareRing = unitSquareRing ∧ 3 ≤ unitSquareRing.length ∧
      epsilon < 1 ∧
      (geom_to_face_with_hole (.polygon ⟨unitSquareRing, [[(2, 2), (3, 2), (2, 3), (2, 2)]]⟩)
          = .ok (some (.trimmedFace Plane.WorldXY ((unitSquareRing.map toPoint3d).drop 1))) ∧
        geom_to_face_with_hole (.polygon ⟨unitSquareRing, [[(2, 2), (3, 2), (2, 3), (2, 2)]]⟩)
          = geom_to_face_with_hole (.polygon ⟨unitSquareRing, []⟩) ∧
        geom_to_brep (.polygon ⟨unitSquareRing, [[(2, 2), (3, 2), (2, 3), (2, 2)]]⟩) 0 1
          = .ok (some (.extrusionBrep (unitSquareRing.map toPoint3d)
              (([[(2, 2), (3, 2), (2, 3), (2, 2)]].map closeRing).map fun r => r.map toPoint3d)
              ⟨0, 0, 0⟩ ⟨0, 0, 1⟩ ⟨0, 1, 0⟩ true))) :=
  ⟨by decide, by decide, by decide,
    flat_face_exterior_only_extrusion_full_ring unitSquareRing
      [[(2, 2), (3, 2), (2, 3), (2, 2)]] 0 1 (by decide) (by decide) (by decide)⟩

/-- C9: the output of `geom_to_brep` is independent of its `from_elevation`
argument — profile curves are built at `z = 0` and the sweep path starts at
`(0, 0, 0)`, so the body of the function never reads `from_elevation`. -/
theorem geom_to_brep_independent_of_from_elevation (g : Geom) (f1 f2 t : ℚ) :
    geom_to_brep g f1 t = geom_to_brep g f2 t := rfl

/-! Generic list helpers for first-match lookups over tables with distinct
keys. -/

theorem find?_beq_of_nodup {α β : Type} [DecidableEq β] (f : α → β) :
    ∀ (l : List α), (l.map f).Nodup → ∀ a ∈ l, l.find? (fun x => f x == f a) = some a := by
  intro l
  induction l with
  | nil => intro _ a ha; cases ha
  | cons b bs ih =>
    intro hn a ha
    rcases List.mem_cons.mp ha with rfl | hmem
    · rw [List.find?_cons_of_pos _ (by simp)]
    · have hne : f b ≠ f a := by
        intro he
        have : f a ∈ bs.map f := List.mem_map_of_mem f hmem
        rw [List.map_cons] at hn
        exact (List.nodup_cons.mp hn).1 (he ▸ this)
      rw [List.find?_cons_of_neg _ (by simpa using hne)]
      exact ih (List.nodup_cons.mp (List.map_cons f b bs ▸ hn)).2 a hmem

theorem find?_eq_getLast_of_nodup {α β : Type} [DecidableEq β] (f : α → β) (p : β) :
    ∀ (l : List α), (l.map f).Nodup → (l.map f).getLast? = some p →
      l.find? (fun x => f x == p) = l.getLast? := by
  intro l
  induction l with
  | nil => intro _ h; simp at h
  | cons a as ih =>
    intro hn hl
    cases as with
    | nil =>
      simp only [List.map_cons, List.map_nil, List.getLast?_singleton] at hl
      injection hl with hfa
      simp [List.find?_cons_of_pos, hfa]
    | cons b bs =>
      have hl2 : ((b :: bs).map f).getLast? = some p := by
        simpa [List.getLast?_cons_cons] using hl
      have hpmem : p ∈ (b :: bs).map f := List.mem_of_mem_getLast? hl2
      have hne : f a ≠ p := by
        intro he
        rw [List.map_cons] at hn
        exact (List.nodup_cons.mp hn).1 (he ▸ hpmem)
      rw [List.find?_cons_of_neg _ (by simpa using hne), List.getLast?_cons_cons]
      exact ih (List.nodup_cons.mp (by simpa using hn)).2 hl2

theorem filter_getLast? {α : Type} (pred : α → Bool) :
    ∀ (l : List α) (a : α), l.getLast? = some a → pred a = true →
      (l.filter pred).getLast? = some a := by
  intro l
  induction l with
  | nil => intro a h; cases h
  | cons x xs ih =>
    intro a hl hp
    cases xs with
    | nil =>
      simp only [List.getLast?_singleton] at hl
      injection hl with hxa
      subst hxa
      simp [List.filter, hp]
    | cons y ys =>
      have hl2 : (y :: ys).getLast? = some a := by
        simpa [List.getLast?_cons_cons] using hl
      have htail := ih a hl2 hp
      have hne : (y :: ys).filter pred ≠ [] := by
        intro hnil
        rw [hnil] at htail
        cases htail
      rw [List.filter_cons]
      split
      · cases hfe : (y :: ys).filter pred with
        | nil => exact absurd hfe hne
        | cons z zs =>
          rw [List.getLast?_cons_cons, ← hfe]
          exact htail
      · exact htail

/-! Helpers about id lookups and insertion in a well-formed layer table. -/

theorem findById_eq_of_mem (tbl : File3dmLayerTable) (hwf : WFTable tbl)
    (l : Layer) (hl : l ∈ tbl.layers) : tbl.findById l.id = some l :=
  find?_beq_of_nodup Layer.id tbl.layers hwf.1 l hl

theorem findById_eq_none_of_zero (tbl : File3dmLayerTable) (hwf : WFTable tbl) :
    tbl.findById 0 = none := by
  apply List.find?_eq_none.mpr
  intro x hx
  simpa using Nat.ne_of_gt (hwf.2.1 x hx).1

theorem findById_eq_none_of_gt (tbl : File3dmLayerTable) (hwf : WFTable tbl)
    (n : Nat) (hn : tbl.nextId < n) : tbl.findById n = none := by
  apply List.find?_eq_none.mpr
  intro x hx
  have := (hwf.2.1 x hx).2.1
  simp only [beq_iff_eq]
  omega

theorem addNamed_eq (tbl : File3dmLayerTable) (name : String) (pid : Nat) :
    tbl.addNamed name pid = ⟨tbl.layers ++ [newLayerOf tbl name pid], tbl.nextId + 1⟩ :=
  rfl

theorem findById_addNamed (tbl : File3dmLayerTable) (hwf : WFTable tbl)
    (name : String) (pid : Nat) (n : Nat) (hn : n ≤ tbl.nextId) :
    (tbl.addNamed name pid).findById n = tbl.findById n := by
  rw [addNamed_eq]
  show (tbl.layers ++ [newLayerOf tbl name pid]).find? (fun l => l.id == n) = _
  rw [List.find?_append]
  have : [newLayerOf tbl name pid].find? (fun l => l.id == n) = none := by
    apply List.find?_eq_none.mpr
    intro x hx
    rcases List.mem_singleton.mp hx with rfl
    simp only [newLayerOf, beq_iff_eq]
    omega
  rw [this, Option.or_none]
  rfl

theorem WFTable_addNamed (tbl : File3dmLayerTable) (hwf : WFTable tbl)
    (name : String) (pid : Nat) (hpid : pid ≤ tbl.nextId) :
    WFTable (tbl.addNamed name pid) := by
  rw [addNamed_eq]
  refine ⟨?_, ?_, ?_⟩
  · simp only [List.map_append, List.map_cons, List.map_nil]
    rw [List.nodup_append]
    refine ⟨hwf.1, List.nodup_singleton _, ?_⟩
    intro a ha hb
    rcases List.mem_map.mp ha with ⟨x, hx, rfl⟩
    have hxid : x.id = (newLayerOf tbl name pid).id := List.mem_singleton.mp hb
    have := (hwf.2.1 x hx).2.1
    simp only [newLayerOf] at hxid
    omega
  · intro l hl
    rcases List.mem_append.mp hl with hmem | hnew
    · have h1 := hwf.2.1 l hmem
      dsimp only
      exact ⟨h1.1, by omega, by omega⟩
    · rcases List.mem_singleton.mp hnew with rfl
      simp only [newLayerOf]
      refine ⟨by omega, by omega, by omega⟩
  · intro l hl
    rcases List.mem_append.mp hl with hmem | hnew
    · have hcons := hwf.2.2 l hmem
      have hbnd := (hwf.2.1 l hmem).2.2
      have : (File3dmLayerTable.mk (tbl.layers ++ [newLayerOf tbl name pid])
          (tbl.nextId + 1)).findById l.parentLayerId = tbl.findById l.parentLayerId := by
        rw [← addNamed_eq]
        exact findById_addNamed tbl hwf name pid l.parentLayerId hbnd
      rw [this]
      exact hcons
    · rcases List.mem_singleton.mp hnew with rfl
      have : (File3dmLayerTable.mk (tbl.layers ++ [newLayerOf tbl name pid])
          (tbl.nextId + 1)).findById (newLayerOf tbl name pid).parentLayerId
          = tbl.findById pid := by
        rw [← addNamed_eq]
        exact findById_addNamed tbl hwf name pid _ hpid
      rw [this]
      simp only [newLayerOf]

/-! Properties of the accumulated prefix list: with the `"::"` delimiter,
prefixes strictly grow in length, hence are pairwise distinct, and the last
prefix is the join of all segments. -/

theorem partsFrom_length_gt (segs : List String) :
    ∀ (s : String) (q : String), q ∈ partsFrom "::" (some s) segs → s.length < q.length := by
  induction segs with
  | nil => intro s q hq; cases hq
  | cons seg rest ih =>
    intro s q hq
    rcases List.mem_cons.mp hq with rfl | hmem
    · show s.length < (extendPath "::" (some s) seg).length
      simp only [extendPath, String.length_append]
      have : (2:Nat) ≤ ("::" : String).length := by decide
      omega
    · have h1 : (extendPath "::" (some s) seg).length < q.length := ih _ q hmem
      have h2 : s.length < (extendPath "::" (some s) seg).length := by
        simp only [extendPath, String.length_append]
        have : (2:Nat) ≤ ("::" : String).length := by decide
        omega
      omega

theorem partsFrom_nodup (segs : List String) :
    ∀ (sofar : Option String), (partsFrom "::" sofar segs).Nodup := by
  induction segs with
  | nil => intro _; exact List.nodup_nil
  | cons seg rest ih =>
    intro sofar
    rw [partsFrom]
    refine List.nodup_cons.mpr ⟨?_, ih _⟩
    intro hmem
    exact absurd (partsFrom_length_gt rest _ _ hmem) (lt_irrefl _)

theorem partsFrom_ne_of_mem (segs : List String) (s q : String)
    (hq : q ∈ partsFrom "::" (some s) segs) : s ≠ q := by
  intro h
  exact absurd (partsFrom_length_gt segs s q hq) (h ▸ lt_irrefl _)

theorem partsFrom_getLast? (segs : List String) :
    ∀ (sofar : Option String), segs ≠ [] →
      (partsFrom "::" sofar segs).getLast? = joinParts "::" sofar segs := by
  induction segs with
  | nil => intro _ h; exact absurd rfl h
  | cons seg rest ih =>
    intro sofar _
    rw [partsFrom, joinParts]
    cases hrest : rest with
    | nil => simp [partsFrom, joinParts]
    | cons r rs =>
      have hne : rest ≠ [] := by rw [hrest]; exact List.cons_ne_nil r rs
      rw [← hrest]
      have htail := ih (some (extendPath "::" sofar seg)) hne
      have : partsFrom "::" (some (extendPath "::" sofar seg)) rest ≠ [] := by
        rw [hrest, partsFrom]
        exact List.cons_ne_nil _ _
      cases hpf : partsFrom "::" (some (extendPath "::" sofar seg)) rest with
      | nil => exact absurd hpf this
      | cons p ps =>
        rw [List.getLast?_cons_cons]
        rw [hpf] at htail
        exact htail

theorem add_layer_loop_spec (segs : List String) :
    ∀ (tbl : File3dmLayerTable) (parent : Layer) (sofar : Option String)
      (acc : Option Layer) (created : List Layer),
      WFTable tbl →
      ((parent = Layer.fresh ∧ sofar = none) ∨
        (parent ∈ tbl.layers ∧ sofar = some parent.fullPath)) →
      ∃ newL : List Layer,
        (add_layer_loop "::" tbl parent sofar acc created segs).2.1.layers
            = tbl.layers ++ newL ∧
        (add_layer_loop "::" tbl parent sofar acc created segs).2.2
            = created ++ newL ∧
        newL.map Layer.fullPath
            = (partsFrom "::" sofar segs).filter
                (fun q => (tbl.find_layer_from_fullpath q).isNone) ∧
        WFTable (add_layer_loop "::" tbl parent sofar acc created segs).2.1 ∧
        (add_layer_loop "::" tbl parent sofar acc created segs).1
            = (match newL.getLast? with
                | some l => some l
                | none => acc) := by
  induction segs with
  | nil =>
    intro tbl parent sofar acc created hwf _
    refine ⟨[], by simp [add_layer_loop], by simp [add_layer_loop], by simp [partsFrom],
      by simpa [add_layer_loop] using hwf, by simp [add_layer_loop]⟩
  | cons seg rest ih =>
    intro tbl parent sofar acc created hwf hpar
    simp only [add_layer_loop]
    cases hfind : tbl.find_layer_from_fullpath (extendPath "::" sofar seg) with
    | some l =>
      have hlmem : l ∈ tbl.layers := List.mem_of_find?_eq_some hfind
      have hlpath : l.fullPath = extendPath "::" sofar seg := by
        have := List.find?_some hfind
        simpa using this
      obtain ⟨newL, h1, h2, h3, h4, h5⟩ :=
        ih tbl l (some (extendPath "::" sofar seg)) acc created hwf
          (Or.inr ⟨hlmem, by rw [hlpath]⟩)
      refine ⟨newL, h1, h2, ?_, h4, h5⟩
      rw [partsFrom, List.filter_cons]
      simp only [hfind]
      simp only [Option.isNone_some, Bool.false_eq_true, if_false]
      exact h3
    | none =>
      have hpid : parent.id ≤ tbl.nextId := by
        rcases hpar with ⟨rfl, _⟩ | ⟨hmem, _⟩
        · show Layer.fresh.id ≤ _
          simp [Layer.fresh]
        · exact ((hwf.2.1 parent hmem).2.1).trans (Nat.le_refl _)
      have hpathnew :
          (newLayerOf tbl seg parent.id).fullPath = extendPath "::" sofar seg := by
        rcases hpar with ⟨rfl, rfl⟩ | ⟨hmem, hso⟩
        · rw [show Layer.fresh.id = 0 from rfl]
          simp [newLayerOf, findById_eq_none_of_zero tbl hwf, extendPath]
        · rw [hso]
          simp [newLayerOf, findById_eq_of_mem tbl hwf parent hmem, extendPath]
      have hnoexist : tbl.findName seg parent.id = none := by
        apply List.find?_eq_none.mpr
        intro lx hlx hmatch
        have hn : lx.name = seg ∧ lx.parentLayerId = parent.id := by
          simpa using hmatch
        have hcons := hwf.2.2 lx hlx
        have hfx : lx.fullPath = extendPath "::" sofar seg := by
          rw [hcons, hn.2]
          rcases hpar with ⟨rfl, rfl⟩ | ⟨hmem, hso⟩
          · rw [show Layer.fresh.id = 0 from rfl, findById_eq_none_of_zero tbl hwf,
              hn.1]
            rfl
          · rw [findById_eq_of_mem tbl hwf parent hmem, hso, hn.1]
            rfl
        have hnone := List.find?_eq_none.mp hfind lx hlx
        simp [hfx] at hnone
      have hfound : (tbl.addNamed seg parent.id).findName seg parent.id
          = some (newLayerOf tbl seg parent.id) := by
        rw [addNamed_eq]
        show (tbl.layers ++ [newLayerOf tbl seg parent.id]).find? _ = _
        rw [List.find?_append]
        have h0 : tbl.layers.find?
            (fun l => l.name == seg && l.parentLayerId == parent.id) = none := hnoexist
        rw [h0]
        simp [newLayerOf]
      have hwf2 : WFTable (tbl.addNamed seg parent.id) :=
        WFTable_addNamed tbl hwf seg parent.id hpid
      have hgetD : ((tbl.addNamed seg parent.id).findName seg parent.id).getD Layer.fresh
          = newLayerOf tbl seg parent.id := by
        rw [hfound]
        rfl
      rw [hgetD]
      have hmem2 : newLayerOf tbl seg parent.id ∈ (tbl.addNamed seg parent.id).layers := by
        rw [addNamed_eq]
        exact List.mem_append_right _ (List.mem_singleton_self _)
      obtain ⟨newL2, g1, g2, g3, g4, g5⟩ :=
        ih (tbl.addNamed seg parent.id) (newLayerOf tbl seg parent.id)
          (some (extendPath "::" sofar seg)) (some (newLayerOf tbl seg parent.id))
          (created ++ [newLayerOf tbl seg parent.id]) hwf2
          (Or.inr ⟨hmem2, by rw [hpathnew]⟩)
      refine ⟨newLayerOf tbl seg parent.id :: newL2, ?_, ?_, ?_, g4, ?_⟩
      · rw [g1, addNamed_eq]
        simp [List.append_assoc]
      · rw [g2]
        simp [List.append_assoc]
      · rw [List.map_cons, hpathnew, g3]
        have hcongr : (partsFrom "::" (some (extendPath "::" sofar seg)) rest).filter
              (fun q => ((tbl.addNamed seg parent.id).find_layer_from_fullpath q).isNone)
            = (partsFrom "::" (some (extendPath "::" sofar seg)) rest).filter
              (fun q => (tbl.find_layer_from_fullpath q).isNone) := by
          apply List.filter_congr
          intro q hq
          have hne : extendPath "::" sofar seg ≠ q :=
            partsFrom_ne_of_mem rest _ q hq
          have : (tbl.addNamed seg parent.id).find_layer_from_fullpath q
              = tbl.find_layer_from_fullpath q := by
            rw [addNamed_eq]
            show (tbl.layers ++ [newLayerOf tbl seg parent.id]).find? _ = _
            rw [List.find?_append]
            have hnew : [newLayerOf tbl seg parent.id].find?
                (fun l => l.fullPath == q) = none := by
              apply List.find?_eq_none.mpr
              intro x hx
              rcases List.mem_singleton.mp hx with rfl
              simp [hpathnew, hne]
            rw [hnew, Option.or_none]
            rfl
          rw [this]
        rw [hcongr, partsFrom, List.filter_cons]
        simp [hfind]
      · rw [g5]
        cases newL2 with
        | nil => simp
        | cons b bs =>
          rw [List.getLast?_cons_cons]
          cases hlast : (b :: bs).getLast? with
          | none => simp at hlast
          | some l => rfl

theorem add_layer_found (tbl : File3dmLayerTable) (p d : String) (l : Layer)
    (hfind : tbl.find_layer_from_fullpath p = some l) :
    add_layer tbl p d = (l, tbl, []) := by
  simp [add_layer, hfind]

theorem add_layer_create_spec (tbl : File3dmLayerTable) (p : String)
    (hwf : WFTable tbl)
    (hsplit : joinParts "::" none (pySplit p "::") = some p)
    (hmiss : tbl.find_layer_from_fullpath p = none) :
    (add_layer tbl p "::").2.1.layers = tbl.layers ++ (add_layer tbl p "::").2.2 ∧
    (add_layer tbl p "::").2.2.map Layer.fullPath
        = (partsFrom "::" none (pySplit p "::")).filter
            (fun q => (tbl.find_layer_from_fullpath q).isNone) ∧
    ((add_layer tbl p "::").2.2.map Layer.fullPath).Nodup ∧
    WFTable (add_layer tbl p "::").2.1 ∧
    (add_layer tbl p "::").2.1.find_layer_from_fullpath p
        = some (add_layer tbl p "::").1 ∧
    (add_layer tbl p "::").2.2.getLast? = some (add_layer tbl p "::").1 ∧
    (add_layer tbl p "::").1.fullPath = p := by
  obtain ⟨newL, h1, h2, h3, h4, h5⟩ :=
    add_layer_loop_spec (pySplit p "::") tbl Layer.fresh none none [] hwf
      (Or.inl ⟨rfl, rfl⟩)
  have hsegs : pySplit p "::" ≠ [] := by
    intro hnil
    rw [hnil] at hsplit
    cases hsplit
  have hlastparts : (partsFrom "::" none (pySplit p "::")).getLast? = some p := by
    rw [partsFrom_getLast? _ _ hsegs, hsplit]
  have hpredp : (fun q => (tbl.find_layer_from_fullpath q).isNone) p = true := by
    simp [hmiss]
  have hF : (newL.map Layer.fullPath).getLast? = some p := by
    rw [h3]
    exact filter_getLast? _ _ p hlastparts hpredp
  have hFnodup : (newL.map Layer.fullPath).Nodup := by
    rw [h3]
    exact (partsFrom_nodup _ _).filter _
  obtain ⟨lN, hlN⟩ : ∃ lN, newL.getLast? = some lN := by
    rw [List.getLast?_map] at hF
    cases hlast : newL.getLast? with
    | none => rw [hlast] at hF; cases hF
    | some x => exact ⟨x, rfl⟩
  have hlNpath : lN.fullPath = p := by
    rw [List.getLast?_map, hlN] at hF
    injection hF
  have hR : add_layer tbl p "::"
      = (lN, (add_layer_loop "::" tbl Layer.fresh none none [] (pySplit p "::")).2.1,
          newL) := by
    simp only [add_layer, hmiss]
    have h2' : (add_layer_loop "::" tbl Layer.fresh none none [] (pySplit p "::")).2.2
        = newL := by
      rw [h2]; rfl
    have h5' : (add_layer_loop "::" tbl Layer.fresh none none [] (pySplit p "::")).1
        = some lN := by
      rw [h5, hlN]
    rw [h2', h5']
    rfl
  have hfindnew : (add_layer_loop "::" tbl Layer.fresh none none
      [] (pySplit p "::")).2.1.find_layer_from_fullpath p = some lN := by
    show ((add_layer_loop "::" tbl Layer.fresh none none
        [] (pySplit p "::")).2.1.layers).find? (fun l => l.fullPath == p) = some lN
    rw [h1, List.find?_append]
    have hl : tbl.layers.find? (fun l => l.fullPath == p) = none := hmiss
    rw [hl]
    have hfl : newL.find? (fun l => l.fullPath == p) = newL.getLast? :=
      find?_eq_getLast_of_nodup Layer.fullPath p newL hFnodup hF
    simp [hfl, hlN]
  have h1' : (add_layer_loop "::" tbl Layer.fresh none none
      [] (pySplit p "::")).2.1.layers = tbl.layers ++ newL := h1
  rw [hR]
  exact ⟨h1', h3, hFnodup, h4, hfindnew, hlN, hlNpath⟩

/-- C2: `add_layer` is idempotent — a second call with the same full path
returns the same layer and leaves the layer table unchanged (when the path
already exists, the existing layer is returned and nothing is created) — and
a single call on a missing path only appends layers, creating exactly the
missing prefixes of the path (each exactly once, never duplicating a prefix
that already exists in the table). -/
theorem add_layer_idempotent_and_creates_missing_once (tbl : File3dmLayerTable)
    (p : String) (hwf : WFTable tbl)
    (hsplit : joinParts "::" none (pySplit p "::") = some p) :
    add_layer (add_layer tbl p "::").2.1 p "::"
        = ((add_layer tbl p "::").1, (add_layer tbl p "::").2.1, []) ∧
    (∀ l, tbl.find_layer_from_fullpath p = some l →
      add_layer tbl p "::" = (l, tbl, [])) ∧
    (tbl.find_layer_from_fullpath p = none →
      (add_layer tbl p "::").2.1.layers = tbl.layers ++ (add_layer tbl p "::").2.2 ∧
      (add_layer tbl p "::").2.2.map Layer.fullPath
          = (partsFrom "::" none (pySplit p "::")).filter
              (fun q => (tbl.find_layer_from_fullpath q).isNone) ∧
      ((add_layer tbl p "::").2.2.map Layer.fullPath).Nodup) := by
  refine ⟨?_, fun l hl => add_layer_found tbl p "::" l hl, fun hmiss => ?_⟩
  · cases hfind : tbl.find_layer_from_fullpath p with
    | some l =>
      have hR := add_layer_found tbl p "::" l hfind
      rw [hR]
      exact add_layer_found tbl p "::" l hfind
    | none =>
      obtain ⟨_, _, _, _, hfind2, _, _⟩ := add_layer_create_spec tbl p hwf hsplit hfind
      exact add_layer_found _ p "::" _ hfind2
  · obtain ⟨a, b, c, _, _, _, _⟩ := add_layer_create_spec tbl p hwf hsplit hmiss
    exact ⟨a, b, c⟩

/-- Witness for the C2 theorem at the empty layer table and the path
`"umi::Context::Streets"`. -/
theorem add_layer_idempotent_witness :
    WFTable File3dmLayerTable.empty ∧
    joinParts "::" none (pySplit "umi::Context::Streets" "::")
        = some "umi::Context::Streets" ∧
    (add_layer (add_layer File3dmLayerTable.empty "umi::Context::Streets" "::").2.1
          "umi::Context::Streets" "::"
        = ((add_layer File3dmLayerTable.empty "umi::Context::Streets" "::").1,
            (add_layer File3dmLayerTable.empty "umi::Context::Streets" "::").2.1, []) ∧
      (∀ l, File3dmLayerTable.empty.find_layer_from_fullpath "umi::Context::Streets"
          = some l →
        add_layer File3dmLayerTable.empty "umi::Context::Streets" "::"
          = (l, File3dmLayerTable.empty, [])) ∧
      (File3dmLayerTable.empty.find_layer_from_fullpath "umi::Context::Streets" = none →
        (add_layer File3dmLayerTable.empty "umi::Context::Streets" "::").2.1.layers
            = File3dmLayerTable.empty.layers
              ++ (add_layer File3dmLayerTable.empty "umi::Context::Streets" "::").2.2 ∧
        (add_layer File3dmLayerTable.empty "umi::Context::Streets" "::").2.2.map
              Layer.fullPath
            = (partsFrom "::" none (pySplit "umi::Context::Streets" "::")).filter
                (fun q =>
                  (File3dmLayerTable.empty.find_layer_from_fullpath q).isNone) ∧
        ((add_layer File3dmLayerTable.empty "umi::Context::Streets" "::").2.2.map
            Layer.fullPath).Nodup)) :=
  ⟨by decide, by decide,
    add_layer_idempotent_and_creates_missing_once File3dmLayerTable.empty
      "umi::Context::Streets" (by decide) (by decide)⟩

theorem foldl_cons_eq_reverse_append {α β : Type} (f : α → β) :
    ∀ (l : List α) (init : List β),
      l.foldl (fun acc x => f x :: acc) init = (l.map f).reverse ++ init := by
  intro l
  induction l with
  | nil => intro init; rfl
  | cons a as ih =>
    intro init
    rw [List.foldl_cons, ih (f a :: init)]
    simp

/-- C10: the registry consulted by `UmiLayers.__getitem__` is class-level
shared state.  If instance `i` creates the layer for `full_path`, then the
class-level lookup of `full_path` — the lookup used when indexing any
`UmiLayers` instance, since `__getitem__` is a classmethod that ignores the
instance — returns the very layer object created by instance `i` (the entry
is tagged `i`), even though the file tables of all other instances `j ≠ i`
are untouched (and in particular need not contain the path at all). -/
theorem class_registry_shared_across_instances (w : UmiLayersWorld) (i : Nat)
    (tbl : File3dmLayerTable) (p : String)
    (hi : w.files[i]? = some tbl) (hwf : WFTable tbl)
    (hsplit : joinParts "::" none (pySplit p "::") = some p)
    (hmiss : tbl.find_layer_from_fullpath p = none) :
    UmiLayers_getitem (add_layer_inst w i p).2 p
        = some (i, (add_layer_inst w i p).1) ∧
    (∀ j, j ≠ i → (add_layer_inst w i p).2.files[j]? = w.files[j]?) := by
  obtain ⟨_, _, _, _, _, hlast, hpath⟩ := add_layer_create_spec tbl p hwf hsplit hmiss
  have hinst : add_layer_inst w i p
      = ((add_layer tbl p "::").1,
          { files := w.files.set i (add_layer tbl p "::").2.1,
            classAttrs := (add_layer tbl p "::").2.2.foldl
              (fun acc cl => (cl.fullPath, i, cl) :: acc) w.classAttrs }) := by
    simp only [add_layer_inst, hi]
  rw [hinst]
  constructor
  · show ((((add_layer tbl p "::").2.2.foldl
        (fun acc cl => (cl.fullPath, i, cl) :: acc) w.classAttrs)).find?
          (fun kv => kv.1 == p)).map (fun kv => kv.2)
      = some (i, (add_layer tbl p "::").1)
    rw [foldl_cons_eq_reverse_append (fun cl : Layer => (cl.fullPath, i, cl))]
    have hmaplast : ((add_layer tbl p "::").2.2.map
        (fun cl : Layer => (cl.fullPath, i, cl))).getLast?
        = some ((add_layer tbl p "::").1.fullPath, i, (add_layer tbl p "::").1) := by
      rw [List.getLast?_map, hlast]
      rfl
    have hrev : ((add_layer tbl p "::").2.2.map
        (fun cl : Layer => (cl.fullPath, i, cl))).reverse.head?
        = some ((add_layer tbl p "::").1.fullPath, i, (add_layer tbl p "::").1) := by
      rw [List.head?_reverse]
      exact hmaplast
    cases hr : ((add_layer tbl p "::").2.2.map
        (fun cl : Layer => (cl.fullPath, i, cl))).reverse with
    | nil => rw [hr] at hrev; cases hrev
    | cons x xs =>
      rw [hr] at hrev
      have hx : x = ((add_layer tbl p "::").1.fullPath, i, (add_layer tbl p "::").1) := by
        injection hrev
      rw [List.cons_append, List.find?_cons_of_pos _ (by rw [hx]; simpa using hpath)]
      rw [hx, hpath]
      rfl
  · intro j hj
    show (w.files.set i (add_layer tbl p "::").2.1)[j]? = w.files[j]?
    exact List.getElem?_set_ne (fun h => hj h.symm)

/-- Witness for the C10 theorem: instance 0 of a two-instance world creates
`"umi::Buildings"`; the class-level lookup returns instance 0's layer while
instance 1's file is untouched. -/
theorem class_registry_shared_witness :
    twoInstanceWorld.files[0]? = some File3dmLayerTable.empty ∧
    WFTable File3dmLayerTable.empty ∧
    joinParts "::" none (pySplit "umi::Buildings" "::") = some "umi::Buildings" ∧
    File3dmLayerTable.empty.find_layer_from_fullpath "umi::Buildings" = none ∧
    (UmiLayers_getitem (add_layer_inst twoInstanceWorld 0 "umi::Buildings").2
          "umi::Buildings"
        = some (0, (add_layer_inst twoInstanceWorld 0 "umi::Buildings").1) ∧
      (∀ j, j ≠ 0 →
        (add_layer_inst twoInstanceWorld 0 "umi::Buildings").2.files[j]?
          = twoInstanceWorld.files[j]?)) :=
  ⟨by decide, by decide, by decide, by decide,
    class_registry_shared_across_instances twoInstanceWorld 0
      File3dmLayerTable.empty "umi::Buildings" (by decide) (by decide) (by decide)
      (by decide)⟩

/-- C1 (amended): `move_to_layer` assigns the Shading layer exactly when the
row's template value is the Python object `None`; every other value —
including the `NaN` left by `add_default_shoebox_settings` for features
without an assigned template — sends the object to the Buildings layer, and
the object's `Name` is always `str(series[fid])`. -/
theorem move_to_layer_shading_iff_pynone (fid : String) (f : Feature) :
    ((move_to_layer fid f).1 = "umi::Context::Shading" ↔
      f.cell "TemplateName" = Cell.pynone) ∧
    ((move_to_layer fid f).1 = "umi::Context::Shading" ∨
      (move_to_layer fid f).1 = "umi::Buildings") ∧
    (move_to_layer fid f).2 = (f.cell fid).strOf := by
  unfold move_to_layer
  by_cases h : f.cell "TemplateName" = Cell.pynone
  · simp [h]
  · simp [h]

/-- C1 counterexample: after defaults are applied, the feature's template
value is `NaN` (no energy template assigned), yet `move_to_layer` places it
on `"umi::Buildings"`, not on `"umi::Context::Shading"` as the claim
requires — the source tests `series["TemplateName"] is None`, which is false
for `NaN`. -/
theorem move_to_layer_nan_counterexample :
    ((add_default_shoebox_settings c1Frame).rows[0]?).map
        (fun f => f.cell "TemplateName") = some Cell.nan ∧
    ((add_default_shoebox_settings c1Frame).rows[0]?).map
        (fun f => (move_to_layer "fid" f).1) = some "umi::Buildings" ∧
    "umi::Buildings" ≠ "umi::Context::Shading" := by
  decide

theorem cells_eq_of_mem_explode (f g : Feature) (hg : g ∈ f.explode) :
    g.cells = f.cells := by
  unfold Feature.explode at hg
  cases hfg : f.geom with
  | multiPolygon parts =>
    rw [hfg] at hg
    rcases List.mem_map.mp hg with ⟨p, _, rfl⟩
    rfl
  | point x y =>
    rw [hfg] at hg
    rcases List.mem_singleton.mp hg with rfl
    rfl
  | polygon p =>
    rw [hfg] at hg
    rcases List.mem_singleton.mp hg with rfl
    rfl
  | lineString cs =>
    rw [hfg] at hg
    rcases List.mem_singleton.mp hg with rfl
    rfl

theorem pipeline_cells_from_filtered (h : String) (T : Geom → Geom)
    (xoff yoff : ℚ) (rows : List Feature) :
    ∀ g ∈ pipeline_recentered h T xoff yoff rows,
      ∃ g0 ∈ (filter_missing_height h (filter_invalid_geoms rows).1).1,
        g.cells = g0.cells := by
  intro g hg
  unfold pipeline_recentered project_rows at hg
  rcases List.mem_map.mp hg with ⟨g1, hg1, rfl⟩
  rcases List.mem_map.mp hg1 with ⟨g2, hg2, rfl⟩
  rcases List.mem_flatMap.mp hg2 with ⟨g0, hg0, hgin⟩
  exact ⟨g0, hg0, cells_eq_of_mem_explode g0 g2 hgin⟩

/-- C7: a row whose height attribute is missing is never part of the set that
gets reprojected and recentered, its original index is logged in one of the
two discard warnings (the invalid-geometry one when its geometry is invalid,
the missing-height one otherwise — so the discard happens regardless of
geometry validity), and every row that does reach the reprojected, recentered
collection handed to the solid builder carries a present height value. -/
theorem missing_height_discarded_before_reprojection (h : String)
    (T : Geom → Geom) (xoff yoff : ℚ) (rows : List Feature) (f : Feature)
    (hf : f ∈ rows) (hna : (f.cell h).isna = true) :
    f ∉ (filter_missing_height h (filter_invalid_geoms rows).1).1 ∧
    (f.idx ∈ (filter_invalid_geoms rows).2 ∨
      f.idx ∈ (filter_missing_height h (filter_invalid_geoms rows).1).2) ∧
    (∀ g ∈ pipeline_recentered h T xoff yoff rows, (g.cell h).isna = false) := by
  refine ⟨?_, ?_, ?_⟩
  · intro hmem
    have h2 := (List.mem_filter.mp hmem).2
    simp [hna] at h2
  · by_cases hv : f.geomIsValid
    · right
      apply List.mem_map.mpr
      refine ⟨f, ?_, rfl⟩
      apply List.mem_filter.mpr
      exact ⟨List.mem_filter.mpr ⟨hf, by simp [hv]⟩, by simp [hna]⟩
    · left
      apply List.mem_map.mpr
      exact ⟨f, List.mem_filter.mpr ⟨hf, by simp [hv]⟩, rfl⟩
  · intro g hg
    obtain ⟨g0, hg0, hcells⟩ := pipeline_cells_from_filtered h T xoff yoff rows g hg
    have h2 := (List.mem_filter.mp hg0).2
    have hgc : g.cell h = g0.cell h := by
      unfold Feature.cell Feature.cellEntry
      rw [hcells]
    rw [hgc]
    simpa using h2

/-- Witness for the C7 theorem at a concrete one-row collection. -/
theorem missing_height_discarded_witness :
    c7Row ∈ [c7Row] ∧ (c7Row.cell "height").isna = true ∧
    (c7Row ∉ (filter_missing_height "height" (filter_invalid_geoms [c7Row]).1).1 ∧
      (c7Row.idx ∈ (filter_invalid_geoms [c7Row]).2 ∨
        c7Row.idx ∈ (filter_missing_height "height"
          (filter_invalid_geoms [c7Row]).1).2) ∧
      (∀ g ∈ pipeline_recentered "height" (fun g => g) 0 0 [c7Row],
        (g.cell "height").isna = false)) :=
  ⟨by decide, by decide,
    missing_height_discarded_before_reprojection "height" (fun g => g) 0 0
      [c7Row] c7Row (by decide) (by decide)⟩

theorem find?_key_map (g : String × Cell → String × Cell)
    (hg : ∀ kv, (g kv).1 = kv.1) (c : String) :
    ∀ l : List (String × Cell),
      (l.map g).find? (fun kv => kv.1 == c)
        = (l.find? (fun kv => kv.1 == c)).map g := by
  intro l
  induction l with
  | nil => rfl
  | cons kv rest ih =>
    by_cases hk : kv.1 = c
    · rw [List.map_cons, List.find?_cons_of_pos _ (by simpa [hg] using hk),
        List.find?_cons_of_pos _ (by simpa using hk)]
      rfl
    · rw [List.map_cons, List.find?_cons_of_neg _ (by simpa [hg] using hk),
        List.find?_cons_of_neg _ (by simpa using hk)]
      exact ih

theorem find?_filter_of_find? {α : Type} (p q : α → Bool) :
    ∀ (l : List α) (d : α), l.find? p = some d → q d = true →
      (l.filter q).find? p = some d := by
  intro l
  induction l with
  | nil => intro d hd; cases hd
  | cons x xs ih =>
    intro d hd hq
    by_cases hp : p x = true
    · rw [List.find?_cons_of_pos _ hp] at hd
      injection hd with hxd
      subst hxd
      rw [List.filter_cons, if_pos hq, List.find?_cons_of_pos _ hp]
    · rw [List.find?_cons_of_neg _ hp] at hd
      rw [List.filter_cons]
      split
      · rw [List.find?_cons_of_neg _ hp]
        exact ih d hd hq
      · exact ih d hd hq

theorem foldl_addDefaultColumn_rows (defaults : List (String × Cell)) :
    ∀ fr : Frame, (defaults.map Prod.fst).Nodup →
      (defaults.foldl addDefaultColumn fr).rows
        = fr.rows.map (fun f =>
            { f with cells := f.cells
                ++ defaults.filter (fun d => ¬ fr.columns.contains d.1) }) := by
  induction defaults with
  | nil =>
    intro fr _
    simp
  | cons d ds ih =>
    intro fr hnd
    rw [List.map_cons] at hnd
    have hd1 : d.1 ∉ ds.map Prod.fst := (List.nodup_cons.mp hnd).1
    have hnd2 : (ds.map Prod.fst).Nodup := (List.nodup_cons.mp hnd).2
    have hkeys : ∀ dd ∈ ds, dd.1 ≠ d.1 := by
      intro dd hdd he
      exact hd1 (he ▸ List.mem_map_of_mem Prod.fst hdd)
    rw [List.foldl_cons]
    by_cases hc : fr.columns.contains d.1
    · have hstep : addDefaultColumn fr d = fr := by
        unfold addDefaultColumn
        rw [if_pos hc]
      rw [hstep, ih fr hnd2]
      have : ds.filter (fun dd => ¬ fr.columns.contains dd.1)
          = (d :: ds).filter (fun dd => ¬ fr.columns.contains dd.1) := by
        rw [List.filter_cons]
        have hm : d.1 ∈ fr.columns := by simpa using hc
        simp [hm]
      rw [this]
    · have hstep : addDefaultColumn fr d
          = ⟨fr.columns ++ [d.1],
              fr.rows.map (fun f => { f with cells := f.cells ++ [d] })⟩ := by
        unfold addDefaultColumn
        rw [if_neg hc]
      rw [hstep]
      rw [ih ⟨fr.columns ++ [d.1],
            fr.rows.map (fun f => { f with cells := f.cells ++ [d] })⟩ hnd2]
      rw [List.map_map]
      apply List.map_congr_left
      intro f _
      simp only [Function.comp]
      have hfilter : ds.filter
            (fun dd => ¬ (fr.columns ++ [d.1]).contains dd.1)
          = ds.filter (fun dd => ¬ fr.columns.contains dd.1) := by
        apply List.filter_congr
        intro dd hdd
        have hne : dd.1 ≠ d.1 := hkeys dd hdd
        simp [hne]
      rw [hfilter]
      rw [List.filter_cons]
      simp only [hc]
      rw [List.append_assoc]
      simp

theorem fillCellEntry_key (kc : String × Cell) : (fillCellEntry kc).1 = kc.1 := by
  unfold fillCellEntry
  cases DEFAULT_SHOEBOX_SETTINGS.find? (fun d => d.1 == kc.1) with
  | none => rfl
  | some d =>
    by_cases h : kc.2.isna
    · simp [h]
    · simp [h]

theorem fillnaRow_cells (f0 : Feature) : (fillnaRow f0).cells = f0.cells.map fillCellEntry := rfl

theorem cellEntry_fillnaRow (f0 : Feature) (c : String) :
    (fillnaRow f0).cellEntry c
      = (f0.cells.find? (fun kv => kv.1 == c)).map (fun kv => (fillCellEntry kv).2) := by
  unfold Feature.cellEntry
  rw [fillnaRow_cells, find?_key_map fillCellEntry fillCellEntry_key c f0.cells,
    Option.map_map]
  rfl

/-- C8: `add_default_shoebox_settings` never overrides an explicitly supplied
value — any non-missing cell is unchanged by the call — while a missing
(`NaN`/`None`) cell in a settings column receives that column's default, and
a settings column absent from the frame is added with its default value for
every row. -/
theorem add_default_shoebox_settings_only_fills_missing (fr : Frame) (i : Nat)
    (f : Feature) (c : String) (hi : fr.rows[i]? = some f) :
    ∃ f', (add_default_shoebox_settings fr).rows[i]? = some f' ∧
      (∀ cell, f.cellEntry c = some cell → cell.isna = false →
        f'.cellEntry c = some cell) ∧
      (∀ cell d, f.cellEntry c = some cell → cell.isna = true →
        DEFAULT_SHOEBOX_SETTINGS.find? (fun dd => dd.1 == c) = some d →
        f'.cellEntry c = some d.2) ∧
      (∀ d, f.cellEntry c = none → fr.columns.contains c = false →
        DEFAULT_SHOEBOX_SETTINGS.find? (fun dd => dd.1 == c) = some d →
        f'.cellEntry c = some d.2) := by
  have hnd : (DEFAULT_SHOEBOX_SETTINGS.map Prod.fst).Nodup := by decide
  have hrows : (add_default_shoebox_settings fr).rows
      = (fr.rows.map (fun g =>
          { g with cells := g.cells ++ DEFAULT_SHOEBOX_SETTINGS.filter (fun d => ¬ fr.columns.contains d.1) })).map fillnaRow := by
    simp only [add_default_shoebox_settings]
    rw [foldl_addDefaultColumn_rows DEFAULT_SHOEBOX_SETTINGS fr hnd]
  refine ⟨fillnaRow
    { f with cells := f.cells ++ DEFAULT_SHOEBOX_SETTINGS.filter (fun d => ¬ fr.columns.contains d.1) }, ?_, ?_, ?_, ?_⟩
  · rw [hrows, List.getElem?_map, List.getElem?_map, hi]
    rfl
  · intro cell hcell hisna
    obtain ⟨kv, hkv, hkv2⟩ := Option.map_eq_some'.mp hcell
    rw [cellEntry_fillnaRow]
    show (((f.cells ++ _).find? (fun kv => kv.1 == c)).map
      (fun kv => (fillCellEntry kv).2)) = some cell
    rw [List.find?_append, hkv]
    show some ((fillCellEntry kv).2) = some cell
    unfold fillCellEntry
    cases DEFAULT_SHOEBOX_SETTINGS.find? (fun d => d.1 == kv.1) with
    | none => simp [hkv2]
    | some d =>
      have hkna : kv.2.isna = false := by rw [hkv2]; exact hisna
      simp [hkna, hkv2, hisna]
  · intro cell d hcell hisna hd
    obtain ⟨kv, hkv, hkv2⟩ := Option.map_eq_some'.mp hcell
    have hkey : kv.1 = c := by
      have := List.find?_some hkv
      simpa using this
    rw [cellEntry_fillnaRow]
    show (((f.cells ++ _).find? (fun kv => kv.1 == c)).map
      (fun kv => (fillCellEntry kv).2)) = some d.2
    rw [List.find?_append, hkv]
    show some ((fillCellEntry kv).2) = some d.2
    unfold fillCellEntry
    rw [hkey, hd, hkv2, hisna]
    rfl
  · intro d hnone hcols hd
    have hfnone : f.cells.find? (fun kv => kv.1 == c) = none :=
      Option.map_eq_none'.mp hnone
    have hdkey : d.1 = c := by
      have := List.find?_some hd
      simpa using this
    have hcmem : c ∉ fr.columns := by
      intro hmem
      rw [show fr.columns.contains c = true by simpa using hmem] at hcols
      cases hcols
    have hfilter : (DEFAULT_SHOEBOX_SETTINGS.filter
        (fun dd => ¬ fr.columns.contains dd.1)).find?
          (fun kv => kv.1 == c) = some d := by
      apply find?_filter_of_find? _ _ DEFAULT_SHOEBOX_SETTINGS d hd
      simp [hdkey, hcmem]
    rw [cellEntry_fillnaRow]
    show (((f.cells ++ _).find? (fun kv => kv.1 == c)).map
      (fun kv => (fillCellEntry kv).2)) = some d.2
    rw [List.find?_append, hfnone]
    show ((DEFAULT_SHOEBOX_SETTINGS.filter
        (fun dd => ¬ fr.columns.contains dd.1)).find?
          (fun kv => kv.1 == c)).map (fun kv => (fillCellEntry kv).2) = some d.2
    rw [hfilter]
    show some ((fillCellEntry d).2) = some d.2
    unfold fillCellEntry
    rw [hdkey, hd]
    cases hna : d.2.isna
    · simp [hna]
    · simp [hna]

/-- Witness for the C8 theorem: the explicitly supplied `CoreDepth = 7`
survives `add_default_shoebox_settings` unchanged. -/
theorem add_default_only_fills_missing_witness :
    c8Frame.rows[0]? = some c8Row ∧
    (∃ f', (add_default_shoebox_settings c8Frame).rows[0]? = some f' ∧
      (∀ cell, c8Row.cellEntry "CoreDepth" = some cell → cell.isna = false →
        f'.cellEntry "CoreDepth" = some cell) ∧
      (∀ cell d, c8Row.cellEntry "CoreDepth" = some cell → cell.isna = true →
        DEFAULT_SHOEBOX_SETTINGS.find? (fun dd => dd.1 == "CoreDepth") = some d →
        f'.cellEntry "CoreDepth" = some d.2) ∧
      (∀ d, c8Row.cellEntry "CoreDepth" = none →
        c8Frame.columns.contains "CoreDepth" = false →
        DEFAULT_SHOEBOX_SETTINGS.find? (fun dd => dd.1 == "CoreDepth") = some d →
        f'.cellEntry "CoreDepth" = some d.2)) :=
  ⟨by decide,
    add_default_shoebox_settings_only_fills_missing c8Frame 0 c8Row "CoreDepth"
      (by decide)⟩

theorem extract_ok_of_polyLike (g : Geom) (hg : g.isPolyLike = true) :
    ∃ pr, extract_poly_coords g = .ok pr := by
  cases g with
  | polygon p => exact ⟨_, rfl⟩
  | multiPolygon parts => exact ⟨_, rfl⟩
  | point x y => cases hg
  | lineString cs => cases hg

theorem geom_to_face_with_hole_of_extract (g : Geom)
    (pr : List Coord × List (List Coord)) (hx : extract_poly_coords g = .ok pr) :
    geom_to_face_with_hole g
      = .ok (Brep.CreateTrimmedPlane Plane.WorldXY ((pr.1.map toPoint3d).drop 1)) := by
  simp [geom_to_face_with_hole, hx]

theorem geom_to_brep_extrusion_of_extract (g : Geom)
    (pr : List Coord × List (List Coord)) (f t : ℚ)
    (hx : extract_poly_coords g = .ok pr) (h : ¬ t ≤ epsilon) :
    geom_to_brep g f t
      = .ok (some (.extrusionBrep ((closeRing pr.1).map toPoint3d)
          ((pr.2.map closeRing).map fun r => r.map toPoint3d)
          ⟨0, 0, 0⟩ ⟨0, 0, t⟩ ⟨0, 1, 0⟩ true)) := by
  have htpos : 0 < t := lt_trans epsilon_pos (not_le.mp h)
  have hne : (Point3d.mk 0 0 0) ≠ ⟨0, 0, t⟩ := by
    intro hcontra
    rw [Point3d.mk.injEq] at hcontra
    exact absurd hcontra.2.2.symm (ne_of_gt htpos)
  simp [geom_to_brep, h, hx, shapelyPolygon,
    PolylineCurve.isNoneObject, Plane.truthy, Plane.WorldXY, Line.IsValid,
    vertical_line_length, abs_of_pos htpos, hne]

theorem geom_to_brep_polyLike_ok (g : Geom) (f t : ℚ) (hg : g.isPolyLike = true) :
    ∃ r, geom_to_brep g f t = .ok r := by
  obtain ⟨pr, hx⟩ := extract_ok_of_polyLike g hg
  by_cases ht : t ≤ epsilon
  · rw [geom_to_brep_of_le g f t ht, geom_to_face_with_hole_of_extract g pr hx]
    exact ⟨_, rfl⟩
  · rw [geom_to_brep_extrusion_of_extract g pr f t hx ht]
    exact ⟨_, rfl⟩

theorem make_breps_ok (h : String) :
    ∀ (rows : List Feature) (wb : List (Feature × Option Brep)),
      make_breps h rows = .ok wb →
      wb.map Prod.fst = rows ∧ ∀ fb ∈ wb, try_make_geom h fb.1 = .ok fb.2 := by
  intro rows
  induction rows with
  | nil =>
    intro wb hwb
    unfold make_breps at hwb
    simp only [List.mapM_nil] at hwb
    cases hwb
    exact ⟨rfl, by intro fb hfb; cases hfb⟩
  | cons f rest ih =>
    intro wb hwb
    unfold make_breps at hwb
    rw [List.mapM_cons] at hwb
    unfold make_breps at ih
    cases htry : try_make_geom h f with
    | error e =>
      rw [htry] at hwb
      simp [Except.map, bind, Except.bind] at hwb
    | ok b =>
      rw [htry] at hwb
      cases hrest : rest.mapM (fun f => Except.map (fun b => (f, b)) (try_make_geom h f)) with
      | error e =>
        rw [hrest] at hwb
        simp [Except.map, bind, Except.bind] at hwb
      | ok ws =>
        rw [hrest] at hwb
        have hws := ih ws hrest
        simp only [Except.map, bind, Except.bind, pure, Except.pure] at hwb
        cases hwb
        refine ⟨by simp [hws.1], ?_⟩
        intro fb hfb
        rcases List.mem_cons.mp hfb with rfl | hmem
        · exact htry
        · exact hws.2 fb hmem

theorem make_breps_ok_of_polyLike (h : String) :
    ∀ rows : List Feature, (∀ f ∈ rows, f.geom.isPolyLike = true) →
      ∃ wb, make_breps h rows = .ok wb := by
  intro rows
  induction rows with
  | nil => intro _; exact ⟨[], rfl⟩
  | cons f rest ih =>
    intro hall
    obtain ⟨r, hr⟩ :=
      geom_to_brep_polyLike_ok f.geom 0 (f.heightVal h) (hall f (by simp))
    obtain ⟨ws, hws⟩ := ih (fun g hg => hall g (List.mem_cons_of_mem f hg))
    refine ⟨(f, r) :: ws, ?_⟩
    have htry : try_make_geom h f = .ok r := hr
    unfold make_breps at hws ⊢
    rw [List.mapM_cons, htry, hws]
    simp [Except.map, bind, Except.bind, pure, Except.pure]

/-- C4: in the extrusion case the solid builder never raises for
polygon/multipolygon input (its result is always an `Except.ok`, with any
construction-validity failure encoded as the `none`/NaN sentinel rather than
an exception); the brep-building pass over a polygon/multipolygon batch
therefore succeeds as a whole; and the assembler filters every
sentinel-valued feature out of the batch — logging its original index —
instead of aborting, so no sentinel feature reaches the kept result. -/
theorem build_failure_sentinel_policy :
    (∀ (g : Geom) (fe te : ℚ), g.isPolyLike = true → epsilon < te →
      ∃ r, geom_to_brep g fe te = .ok r) ∧
    (∀ (h : String) (rows : List Feature),
      (∀ f ∈ rows, f.geom.isPolyLike = true) →
      ∃ wb, make_breps h rows = .ok wb) ∧
    (∀ (h : String) (rows : List Feature) (wb : List (Feature × Option Brep)),
      make_breps h rows = .ok wb →
      ∀ f ∈ rows, try_make_geom h f = .ok none →
        f.idx ∈ (filter_errored_breps wb).2 ∧
        ∀ pr ∈ (filter_errored_breps wb).1, pr.1 ≠ f) := by
  refine ⟨?_, ?_, ?_⟩
  · intro g fe te hg _
    exact geom_to_brep_polyLike_ok g fe te hg
  · intro h rows hall
    exact make_breps_ok_of_polyLike h rows hall
  · intro h rows wb hwb f hf htry
    obtain ⟨hmap, hall⟩ := make_breps_ok h rows wb hwb
    have hfmem : f ∈ wb.map Prod.fst := hmap ▸ hf
    obtain ⟨fb, hfb, hfb1⟩ := List.mem_map.mp hfmem
    have hfb2 : fb.2 = none := by
      have h1 := hall fb hfb
      rw [hfb1, htry] at h1
      injection h1 with h2
      exact h2.symm
    constructor
    · apply List.mem_map.mpr
      refine ⟨fb, ?_, by rw [hfb1]⟩
      apply List.mem_filter.mpr
      exact ⟨hfb, by simp [hfb2]⟩
    · intro pr hpr hpr1
      obtain ⟨fb2, hfb2mem, hsome⟩ := List.mem_filterMap.mp hpr
      obtain ⟨b, hb2, hbpr⟩ := Option.map_eq_some'.mp hsome
      have h1 := hall fb2 hfb2mem
      rw [hb2] at h1
      have hfst : fb2.1 = f := by
        rw [← hbpr] at hpr1
        exact hpr1
      rw [hfst, htry] at h1
      injection h1 with h2
      cases h2

attribute [local semireducible] Rat.sub Rat.add Rat.mul Rat.inv Rat.ofScientific in
/-- Witness for the C4 theorem at concrete inputs: a unit square at height 1
builds without raising, a batch with a degenerate feature still succeeds, and
the degenerate feature's sentinel row is logged and excluded. -/
theorem build_failure_sentinel_policy_witness :
    ((Geom.polygon unitSquare).isPolyLike = true ∧ epsilon < 1 ∧
      (∃ r, geom_to_brep (.polygon unitSquare) 0 1 = .ok r)) ∧
    ((∀ f ∈ [c4BadRow], f.geom.isPolyLike = true) ∧
      (∃ wb, make_breps "height" [c4BadRow] = .ok wb)) ∧
    (make_breps "height" [c4BadRow] = .ok [(c4BadRow, none)] ∧
      c4BadRow ∈ [c4BadRow] ∧ try_make_geom "height" c4BadRow = .ok none ∧
      (c4BadRow.idx ∈ (filter_errored_breps [(c4BadRow, none)]).2 ∧
        ∀ pr ∈ (filter_errored_breps [(c4BadRow, none)]).1, pr.1 ≠ c4BadRow)) :=
  ⟨⟨by decide, by decide,
      build_failure_sentinel_policy.1 (.polygon unitSquare) 0 1 (by decide)
        (by decide)⟩,
    ⟨by decide,
      build_failure_sentinel_policy.2.1 "height" [c4BadRow] (by decide)⟩,
    ⟨by decide, by decide, by decide,
      build_failure_sentinel_policy.2.2 "height" [c4BadRow] [(c4BadRow, none)]
        (by decide) c4BadRow (by decide) (by decide)⟩⟩

end Pyumi
